import Mathlib

/-!
# Verification of `thesoup::types::VectorCache` (src/headers/thesoup/types/vector_cache.hpp)

A shallow embedding of the cache-backed vector from
`src/headers/thesoup/types/vector_cache.hpp`.  The class keeps a direct-mapped
page table of `2^page_index_bits` slots, each holding a page of
`2^page_offset_bits` elements; pages are evicted to / reloaded from a
caller-supplied backing store (a `saver` and a `loader` callback).

Modelling conventions:
* C++ `std::size_t` values are modelled as `Nat`.  The bit manipulations of the
  source (`idx & (page_size-1)`, `page_number & (table_size-1)`) are kept
  verbatim as `Nat.land`; they agree with `% 2^k` on all of `Nat`.  The page
  number computation `(idx & ~(page_size-1)) >> page_offset_bits` involves the
  64-bit complement mask and is modelled as `idx >>> page_offset_bits`; the two
  agree on the whole `size_t` domain (`mask_shift_agrees` below proves this).
* Buffers (`T*` of capacity `page_size`) are modelled as lists of length
  `page_size`; `thesoup::types::Slice<T>` is a buffer plus a `size` field.
* `thesoup::types::Result` and `Slice` live in `thesoup/types/types.hpp`, which
  is not under `src/`; they are modelled from the spec (§6) and from their unit
  tests (`src/tst/thesoup/types/types.cc`): `Result::unwrap` on a failure
  throws `std::runtime_error`, `Slice::operator[]` bounds-checks against `size`
  and throws `std::out_of_range`.
* A throw inside a `noexcept` member (`push_back`) calls `std::terminate`; we
  model that outcome as `Option.none` (the operation never returns).
-/

set_option maxHeartbeats 1600000

namespace thesoup

/-- Modelled from the spec: `thesoup::types::Result<S, F>` from
`thesoup/types/types.hpp` (the header is not under `src/`).  Per §6 of the spec
and `src/tst/thesoup/types/types.cc` it is a success/failure sum; `unwrap` on a
failure throws `std::runtime_error`. -/
inductive Result (S F : Type) where
  | success : S → Result S F
  | failure : F → Result S F
deriving Repr, DecidableEq

/-- Modelled from the spec: `thesoup::types::Slice<T>` from
`thesoup/types/types.hpp` (not under `src/`): a pointer to a buffer plus an
element count.  The buffer is modelled as the list of values it holds. -/
structure Slice (T : Type) where
  start : List T
  size : Nat
deriving Repr, DecidableEq

/-- Modelled from the spec: `Slice<T>::operator[]` is bounds-checked against
`size` and throws `std::out_of_range` on violation (per
`src/tst/thesoup/types/types.cc`); `none` models the throw. -/
def Slice.read {T : Type} [Inhabited T] (s : Slice T) (idx : Nat) : Option T :=
  if idx < s.size then some (s.start.getD idx default) else none

/-- `VectorCache::Page` (vector_cache.hpp:117-121): a page-table slot. -/
structure Page (T : Type) where
  slice : Slice T := ⟨[], 0⟩
  valid : Bool := false
  page_number : Nat := 0
deriving Repr, DecidableEq

instance {T : Type} : Inhabited (Page T) := ⟨{}⟩

/-- `page_size = 1 << page_offset_bits` (vector_cache.hpp:123). -/
def page_size (O : Nat) : Nat := 1 <<< O

/-- `page_offset_bit_mask = page_size - 1` (vector_cache.hpp:124). -/
def page_offset_bit_mask (O : Nat) : Nat := page_size O - 1

/-- `page_table_size = 1 << page_index_bits` (vector_cache.hpp:128). -/
def page_table_size (R : Nat) : Nat := 1 <<< R

/-- `page_table_entry_bit_mask = page_table_size - 1` (vector_cache.hpp:129). -/
def page_table_entry_bit_mask (R : Nat) : Nat := page_table_size R - 1

/-- The bit width of `std::size_t` on the (64-bit) target platform. -/
def size_t_width : Nat := 64

/-- `page_number_bit_mask = ~page_offset_bit_mask` (vector_cache.hpp:126); the
complement is taken at the width of `std::size_t`. -/
def page_number_bit_mask (O : Nat) : Nat :=
  (2 ^ size_t_width - 1) ^^^ page_offset_bit_mask O

/-- `(idx & page_number_bit_mask) >> page_offset_bits`, the page number of a
flat index (vector_cache.hpp:202, 251).  On `Nat` the complement mask cannot be
taken, but masking then shifting equals the plain shift on the whole `size_t`
domain (`mask_shift_agrees`), so the shift is used as the definition. -/
def page_number_of (O idx : Nat) : Nat := idx >>> O

/-- `idx & page_offset_bit_mask`, the offset of a flat index inside its page
(vector_cache.hpp:203, 252). -/
def page_offset_of (O idx : Nat) : Nat := idx &&& page_offset_bit_mask O

/-- `page_number & page_table_entry_bit_mask`, the page-table slot of a page
(vector_cache.hpp:204, 253, 336). -/
def entry_of (R p : Nat) : Nat := p &&& page_table_entry_bit_mask R

/-- `VectorCache`'s own state (vector_cache.hpp:134-136): the page table, the
logical element count `_size` and the count `num_pages` of pages ever created.
The `saver`/`loader` callbacks are passed explicitly to each operation. -/
structure VectorCache (T : Type) where
  page_table : List (Page T)
  _size : Nat
  num_pages : Nat
deriving Repr, DecidableEq

/-- The backing store interface: the `saver` and `loader` callbacks handed to
the constructor (vector_cache.hpp:131-132, 145-148), with their side effects
made explicit as a state `σ`. -/
structure Backing (T σ : Type) where
  saver : σ → Slice T → Nat → Result Bool Int × σ
  loader : σ → Nat → Result (Slice T) Int × σ

/-- The freshly constructed cache (vector_cache.hpp:134, 145-148):
`page_table` holds `page_table_size` default-initialised `Page`s, and both
counters are zero. -/
def VectorCache.init (T : Type) (R : Nat) : VectorCache T :=
  ⟨List.replicate (page_table_size R) default, 0, 0⟩

/-- `VectorCache::size` (vector_cache.hpp:293-295). -/
def VectorCache.size {T : Type} (vc : VectorCache T) : Nat := vc._size

/-- `VectorCache::bytes` (vector_cache.hpp:306-308):
`num_pages * page_size * sizeof(T)`. -/
def VectorCache.bytes {T : Type} (O sizeofT : Nat) (vc : VectorCache T) : Nat :=
  vc.num_pages * page_size O * sizeofT

/-- `VectorCache::num_partitions` (vector_cache.hpp:317-319). -/
def VectorCache.num_partitions {T : Type} (vc : VectorCache T) : Nat := vc.num_pages

/-- The move constructor (vector_cache.hpp:175-184): the destination takes the
page table and both counters; the source's table is cleared and its counters
zeroed.  First component: the destination; second: the moved-from source. -/
def VectorCache.moveConstruct {T : Type} (other : VectorCache T) :
    VectorCache T × VectorCache T :=
  (⟨other.page_table, other._size, other.num_pages⟩, ⟨[], 0, 0⟩)

/-- The common tail of `push_back` (vector_cache.hpp:231-233):
`slice.size++; slice[page_offset] = item; _size++`.  The write through
`Slice::operator[]` is bounds-checked against the already incremented size; a
violation would throw inside a `noexcept` member, i.e. terminate (`none`). -/
def push_back_write {T σ : Type} [Inhabited T] (vc : VectorCache T) (st : σ)
    (e off : Nat) (item : T) : Option (VectorCache T × σ) :=
  let pg := vc.page_table.getD e default
  let newUsed := pg.slice.size + 1
  if off < newUsed then
    some ({ vc with
              page_table := vc.page_table.set e
                { pg with slice := ⟨pg.slice.start.set off item, newUsed⟩ },
              _size := vc._size + 1 }, st)
  else none

/-- `VectorCache::push_back` (vector_cache.hpp:201-234).  The function is
`noexcept`; the `loader(...).unwrap()` on a failed load throws and therefore
terminates the program (`none`).  The result of the `saver` call on eviction is
discarded, exactly as in the source (line 210). -/
def push_back {T σ : Type} [Inhabited T] (O R : Nat) (B : Backing T σ)
    (vc : VectorCache T) (st : σ) (item : T) : Option (VectorCache T × σ) :=
  let page_number_to_insert_to := page_number_of O vc._size
  let page_offset := page_offset_of O vc._size
  let page_table_entry := entry_of R page_number_to_insert_to
  let pg := vc.page_table.getD page_table_entry default
  if pg.page_number ≠ page_number_to_insert_to ∨ page_number_to_insert_to ≥ vc.num_pages then
    -- page swap needed; the eviction's save Result is discarded by the source
    let st1 := if pg.valid then (B.saver st pg.slice pg.page_number).2 else st
    if page_number_to_insert_to ≥ vc.num_pages then
      -- new page needed
      let pg2 : Page T :=
        { pg with slice := ⟨List.replicate (page_size O) default, 0⟩,
                  valid := true, page_number := page_number_to_insert_to }
      push_back_write
        { vc with page_table := vc.page_table.set page_table_entry pg2,
                  num_pages := vc.num_pages + 1 }
        st1 page_table_entry page_offset item
    else
      -- just a simple swap will suffice
      match B.loader st1 page_number_to_insert_to with
      | (Result.failure _, _) => none
      | (Result.success sl, st2) =>
        let pg2 : Page T :=
          { pg with slice := ⟨sl.start, sl.size⟩,
                    valid := true, page_number := page_number_to_insert_to }
        push_back_write
          { vc with page_table := vc.page_table.set page_table_entry pg2 }
          st2 page_table_entry page_offset item
  else
    push_back_write vc st page_table_entry page_offset item

/-- The error outcomes of `operator[]` and `get_partition`:
`std::out_of_range` for a bad index (vector_cache.hpp:249) or a bad partition
number (line 334), `std::runtime_error` carrying the backing store's error code
for a failed save/load (lines 261, 265, 274, and `Result::unwrap`), and the
`std::out_of_range` a `Slice` read past its size would throw. -/
inductive VCError where
  | indexOutOfRange
  | partitionOutOfRange
  | sliceOutOfRange
  | backingStoreError (code : Int)
deriving Repr, DecidableEq

/-- `VectorCache::operator[]` (vector_cache.hpp:245-283).  Returns the read
outcome together with the state of the cache and of the backing store after
the call (on a throw, the C++ object survives with its fields as at the throw
point). -/
def readAt {T σ : Type} [Inhabited T] (O R : Nat) (B : Backing T σ)
    (vc : VectorCache T) (st : σ) (idx : Nat) :
    Except VCError T × VectorCache T × σ :=
  if idx ≥ vc._size then (Except.error VCError.indexOutOfRange, vc, st)
  else
    let page_number := page_number_of O idx
    let page_offset := page_offset_of O idx
    let page_table_entry := entry_of R page_number
    let pg := vc.page_table.getD page_table_entry default
    if pg.page_number = page_number ∧ pg.valid then
      -- ideal case: cache hit
      match pg.slice.read page_offset with
      | some v => (Except.ok v, vc, st)
      | none => (Except.error VCError.sliceOutOfRange, vc, st)
    else if pg.page_number ≠ page_number ∧ pg.valid then
      -- some other valid page resident: save it, then load the wanted one
      match B.saver st pg.slice pg.page_number with
      | (Result.failure e, st1) => (Except.error (VCError.backingStoreError e), vc, st1)
      | (Result.success _, st1) =>
        match B.loader st1 page_number with
        | (Result.failure e, st2) => (Except.error (VCError.backingStoreError e), vc, st2)
        | (Result.success sl, st2) =>
          let pg2 : Page T := { pg with slice := ⟨sl.start, sl.size⟩, page_number := page_number }
          let vc2 := { vc with page_table := vc.page_table.set page_table_entry pg2 }
          match pg2.slice.read page_offset with
          | some v => (Except.ok v, vc2, st2)
          | none => (Except.error VCError.sliceOutOfRange, vc2, st2)
    else
      -- the slot was never made valid: load directly
      match B.loader st page_number with
      | (Result.failure e, st1) => (Except.error (VCError.backingStoreError e), vc, st1)
      | (Result.success sl, st1) =>
        let pg2 : Page T :=
          { pg with slice := ⟨sl.start, sl.size⟩, page_number := page_number, valid := true }
        let vc2 := { vc with page_table := vc.page_table.set page_table_entry pg2 }
        match pg2.slice.read page_offset with
        | some v => (Except.ok v, vc2, st1)
        | none => (Except.error VCError.sliceOutOfRange, vc2, st1)

/-- `VectorCache::get_partition` (vector_cache.hpp:332-356).  The eviction's
save Result is discarded (the source's line 341 carries a
`TODO: Throw on save failure`); a failed load's `unwrap` throws
`std::runtime_error`, surfaced here as `backingStoreError`.  Note that the
`!valid` branch of the source does not set `valid`, and this is kept. -/
def get_partition {T σ : Type} [Inhabited T] (O R : Nat) (B : Backing T σ)
    (vc : VectorCache T) (st : σ) (page_number : Nat) :
    Except VCError (Slice T) × VectorCache T × σ :=
  if page_number ≥ vc.num_pages then (Except.error VCError.partitionOutOfRange, vc, st)
  else
    let page_table_entry := entry_of R page_number
    let pg := vc.page_table.getD page_table_entry default
    if pg.page_number ≠ page_number ∧ pg.valid then
      -- load page if needed; the save Result is discarded (TODO in source)
      let st1 := (B.saver st pg.slice pg.page_number).2
      match B.loader st1 page_number with
      | (Result.failure e, st2) => (Except.error (VCError.backingStoreError e), vc, st2)
      | (Result.success sl, st2) =>
        let pg2 : Page T := { pg with slice := ⟨sl.start, sl.size⟩, page_number := page_number }
        let vc2 := { vc with page_table := vc.page_table.set page_table_entry pg2 }
        (Except.ok ⟨sl.start, sl.size⟩, vc2, st2)
    else if pg.valid = false then
      match B.loader st page_number with
      | (Result.failure e, st1) => (Except.error (VCError.backingStoreError e), vc, st1)
      | (Result.success sl, st1) =>
        let pg2 : Page T := { pg with slice := ⟨sl.start, sl.size⟩, page_number := page_number }
        let vc2 := { vc with page_table := vc.page_table.set page_table_entry pg2 }
        (Except.ok ⟨sl.start, sl.size⟩, vc2, st1)
    else
      (Except.ok ⟨pg.slice.start, pg.slice.size⟩, vc, st)

/-- The state of the honest backing store: the trace of save calls (most
recent first; the contents most recently saved for a page is the first entry
carrying that page number) and the trace of load calls.  This mirrors the
`InMemDB` store of `src/tst/thesoup/types/vector.cc` and is the canonical
store whose `load(p)` returns exactly the contents most recently saved for
`p`, failing (`failure 1`, as in `InMemDB::load`) for a never-saved page. -/
structure HonestSt (T : Type) where
  saves : List (Nat × Slice T)
  loads : List Nat
deriving Repr, DecidableEq

/-- The contents most recently saved for page `p`, if any. -/
def dbLookup {T : Type} (l : List (Nat × Slice T)) (p : Nat) : Option (Slice T) :=
  (l.find? (fun e => e.1 == p)).map (·.2)

/-- The honest backing store over `HonestSt`: `save` records the slice under
the page number (and always succeeds), `load` returns the most recently saved
slice for the page, failing with error code 1 when none exists — the semantics
of `InMemDB` in `src/tst/thesoup/types/vector.cc` and the store posited by the
spec's §6 contract. -/
def honest (T : Type) : Backing T (HonestSt T) where
  saver := fun st sl p => (Result.success true, ⟨(p, sl) :: st.saves, st.loads⟩)
  loader := fun st p =>
    match dbLookup st.saves p with
    | some sl => (Result.success ⟨sl.start, sl.size⟩, ⟨st.saves, p :: st.loads⟩)
    | none => (Result.failure 1, ⟨st.saves, p :: st.loads⟩)

/-- The states reachable from a freshly constructed `VectorCache` driven
against the honest backing store by any sequence of `push_back`, `operator[]`
and `get_partition` calls.  The ghost list `items` records the values appended
so far, in order. -/
inductive Reach {T : Type} [Inhabited T] (O R : Nat) :
    VectorCache T → HonestSt T → List T → Prop where
  | init : Reach O R (VectorCache.init T R) ⟨[], []⟩ []
  | push {vc st items x vc' st'} :
      Reach O R vc st items →
      push_back O R (honest T) vc st x = some (vc', st') →
      Reach O R vc' st' (items ++ [x])
  | read {vc st items idx} :
      Reach O R vc st items →
      Reach O R (readAt O R (honest T) vc st idx).2.1
        (readAt O R (honest T) vc st idx).2.2 items
  | getp {vc st items p} :
      Reach O R vc st items →
      Reach O R (get_partition O R (honest T) vc st p).2.1
        (get_partition O R (honest T) vc st p).2.2 items

/-- Run a list of appends from a given configuration, against a backing store.
Stops (`none`) if some `push_back` terminates the program. -/
def push_all {T σ : Type} [Inhabited T] (O R : Nat) (B : Backing T σ)
    (vc : VectorCache T) (st : σ) : List T → Option (VectorCache T × σ)
  | [] => some (vc, st)
  | x :: xs => do
    let (vc', st') ← push_back O R B vc st x
    push_all O R B vc' st' xs

/-- The `static_assert` guarding construction (vector_cache.hpp:114):
`page_offset_bits + page_index_bits < sizeof(std::size_t)`.  Note that
`sizeof` yields the size in BYTES (8 on the target platform), not the bit
width. -/
def sizeof_size_t : Nat := 8

/-- Whether a configuration compiles, per the source's `static_assert`
(vector_cache.hpp:114). -/
def config_accepted (O R : Nat) : Bool := decide (O + R < sizeof_size_t)

/-- Modelled from the spec (§4.1, §3): construction is rejected exactly when
`offset_bits + index_bits >= index_type_width`, the BIT width of the native
index type (64 on the target platform). -/
def spec_config_accepted (O R : Nat) : Bool := decide (O + R < size_t_width)

/-! ## Ghost bookkeeping: pages ever created, used count of a page -/

/-- The number of pages a vector of `n` elements has ever created:
`ceil(n / page_size)`. -/
def numPagesOf (O n : Nat) : Nat := if n = 0 then 0 else (n - 1) / page_size O + 1

/-- The number of elements that have been written to page `p` of a vector
holding `n` elements: `page_size` for every full page, `n - p*page_size` for
the last one. -/
def usedOf (O n p : Nat) : Nat := min (page_size O) (n - p * page_size O)

/-! ## The reachability invariant -/

/-- A slice correctly holds page `p` of a vector whose appended values are
`items`: full-capacity buffer, the right used count, and the right contents. -/
def pageOK {T : Type} [Inhabited T] (O : Nat) (items : List T) (p : Nat)
    (sl : Slice T) : Prop :=
  sl.start.length = page_size O ∧
  sl.size = usedOf O items.length p ∧
  ∀ j, j < sl.size → sl.start.getD j default = items.getD (p * page_size O + j) default

/-- What a single page-table slot may hold: a valid slot holds a created page
that maps to this slot, with correct contents; an invalid slot is still in its
initial state and no created page maps to it. -/
def slotOK {T : Type} [Inhabited T] (O R np : Nat) (items : List T) (e : Nat)
    (pg : Page T) : Prop :=
  (pg.valid = true →
    pg.page_number < np ∧ entry_of R pg.page_number = e ∧
      pageOK O items pg.page_number pg.slice) ∧
  (pg.valid = false → pg = default ∧ ∀ p, p < np → entry_of R p ≠ e)

/-- Every created page is either resident in its slot or retrievable, with
correct contents, from the backing store. -/
def storeOK {T : Type} [Inhabited T] (O R : Nat) (vc : VectorCache T)
    (st : HonestSt T) (items : List T) : Prop :=
  ∀ p, p < vc.num_pages →
    ((vc.page_table.getD (entry_of R p) default).valid = true ∧
      (vc.page_table.getD (entry_of R p) default).page_number = p) ∨
    ∃ sl, dbLookup st.saves p = some sl ∧ pageOK O items p sl

/-- The full state invariant tying a cache state, the honest store's state and
the ghost list of appended values together. -/
def Inv {T : Type} [Inhabited T] (O R : Nat) (vc : VectorCache T)
    (st : HonestSt T) (items : List T) : Prop :=
  vc._size = items.length ∧
  vc.num_pages = numPagesOf O items.length ∧
  vc.page_table.length = page_table_size R ∧
  (∀ e, e < page_table_size R →
    slotOK O R vc.num_pages items e (vc.page_table.getD e default)) ∧
  storeOK O R vc st items

/-- The backing-store calling discipline of one operation (spec §6): at most
one save call is made, and only for a page counted in `num_pages` at the time
of the call; at most one load call is made, and only for a page that was saved
(evicted) at some earlier point. -/
def saveLoadDiscipline {T : Type} (st st' : HonestSt T) (np : Nat) : Prop :=
  (st'.saves = st.saves ∨ ∃ p sl, st'.saves = (p, sl) :: st.saves ∧ p < np) ∧
  (st'.loads = st.loads ∨ ∃ p, st'.loads = p :: st.loads ∧ ∃ sl, (p, sl) ∈ st.saves)

/-- The state of a backing store whose saver rejects some pages: the saved
pages, the pages whose save attempts were rejected, and the load calls. -/
structure FailSt (T : Type) where
  saves : List (Nat × Slice T)
  failedSaves : List Nat
  loads : List Nat
deriving Repr, DecidableEq

/-- A backing store like the honest one except that its saver rejects every
save of page `b` with error code 7 (recording the attempt); such a saver is a
legitimate instantiation of the §6 contract, whose save may fail. -/
def failingOn (T : Type) (b : Nat) : Backing T (FailSt T) where
  saver := fun st sl p =>
    if p = b then (Result.failure 7, ⟨st.saves, p :: st.failedSaves, st.loads⟩)
    else (Result.success true, ⟨(p, sl) :: st.saves, st.failedSaves, st.loads⟩)
  loader := fun st p =>
    match dbLookup st.saves p with
    | some sl => (Result.success ⟨sl.start, sl.size⟩, ⟨st.saves, st.failedSaves, p :: st.loads⟩)
    | none => (Result.failure 1, ⟨st.saves, st.failedSaves, p :: st.loads⟩)

/-- 17 appends (`0..16`) with `offset_bits=2`, `index_bits=2` against a store
whose saver rejects page 0: the 17th append evicts page 0 and its save
fails. -/
def c2RunA : Option (VectorCache Int × FailSt Int) :=
  push_all 2 2 (failingOn Int 0) (VectorCache.init Int 2) ⟨[], [], []⟩
    ((List.range 17).map Int.ofNat)

/-- 17 appends (`0..16`) against a store whose saver rejects page 4: the
appends themselves only ever save page 0, which succeeds; a later
`get_partition 0` evicts page 4 and that save fails. -/
def c2RunB : Option (VectorCache Int × FailSt Int) :=
  push_all 2 2 (failingOn Int 4) (VectorCache.init Int 2) ⟨[], [], []⟩
    ((List.range 17).map Int.ofNat)

/-- The spec's §8 concrete scenario, first phase: appending the integers
`0..15` with `offset_bits=2`, `index_bits=2` against the honest store. -/
def c4Run1 : Option (VectorCache Int × HonestSt Int) :=
  push_all 2 2 (honest Int) (VectorCache.init Int 2) ⟨[], []⟩
    ((List.range 16).map Int.ofNat)

/-- Second phase of the scenario: appending one further value, `100`. -/
def c4Run2 : Option (VectorCache Int × HonestSt Int) :=
  c4Run1.bind (fun s => push_back 2 2 (honest Int) s.1 s.2 100)

/-- A concrete reachable state used by the witnesses: the cache after
appending `[10, 20, 30, 40, 50]` with `offset_bits=2`, `index_bits=2` (two
pages created, none evicted yet). -/
def exVC : VectorCache Int :=
  ⟨[⟨⟨[10, 20, 30, 40], 4⟩, true, 0⟩, ⟨⟨[50, 0, 0, 0], 1⟩, true, 1⟩,
    ⟨⟨[], 0⟩, false, 0⟩, ⟨⟨[], 0⟩, false, 0⟩], 5, 2⟩

/-- The honest store's state alongside `exVC`: no evictions have happened. -/
def exSt : HonestSt Int := ⟨[], []⟩

/-! ## Arithmetic bridges: the source's bit manipulations as `/`, `%` -/

theorem page_size_eq (O : Nat) : page_size O = 2 ^ O := by
  simp [page_size, Nat.shiftLeft_eq]

theorem page_size_pos (O : Nat) : 0 < page_size O := by
  rw [page_size_eq]; exact Nat.pos_pow_of_pos O (by norm_num)

theorem page_table_size_eq (R : Nat) : page_table_size R = 2 ^ R := by
  simp [page_table_size, Nat.shiftLeft_eq]

theorem page_table_size_pos (R : Nat) : 0 < page_table_size R := by
  rw [page_table_size_eq]; exact Nat.pos_pow_of_pos R (by norm_num)

theorem page_number_of_eq (O idx : Nat) : page_number_of O idx = idx / page_size O := by
  rw [page_size_eq, page_number_of, Nat.shiftRight_eq_div_pow]

theorem page_offset_of_eq (O idx : Nat) : page_offset_of O idx = idx % page_size O := by
  rw [page_size_eq, page_offset_of, page_offset_bit_mask, page_size_eq]
  apply Nat.eq_of_testBit_eq
  intro i
  simp [Nat.testBit_land, Nat.testBit_mod_two_pow]

theorem entry_of_eq (R p : Nat) : entry_of R p = p % page_table_size R := by
  rw [page_table_size_eq, entry_of, page_table_entry_bit_mask, page_table_size_eq]
  apply Nat.eq_of_testBit_eq
  intro i
  simp [Nat.testBit_land, Nat.testBit_mod_two_pow]

theorem entry_of_lt (R p : Nat) : entry_of R p < page_table_size R := by
  rw [entry_of_eq]; exact Nat.mod_lt _ (page_table_size_pos R)

/-- Sanity: on the whole `std::size_t` domain, masking with
`page_number_bit_mask` and then shifting — the source's page number
computation — agrees with the plain right shift used as the definition of
`page_number_of`. -/
theorem mask_shift_agrees (O idx : Nat) (h : idx < 2 ^ size_t_width) :
    (idx &&& page_number_bit_mask O) >>> O = page_number_of O idx := by
  unfold page_number_of page_number_bit_mask page_offset_bit_mask
  rw [page_size_eq]
  apply Nat.eq_of_testBit_eq
  intro i
  rw [Nat.testBit_shiftRight, Nat.testBit_shiftRight, Nat.testBit_land, Nat.testBit_xor,
    Nat.testBit_two_pow_sub_one, Nat.testBit_two_pow_sub_one]
  by_cases hb : idx.testBit (O + i) = true
  · have hlt : O + i < size_t_width := by
      by_contra hge
      have hfalse : idx.testBit (O + i) = false :=
        Nat.testBit_lt_two_pow
          (lt_of_lt_of_le h (Nat.pow_le_pow_right (by norm_num) (by omega)))
      simp [hfalse] at hb
    have h2 : ¬ (O + i < O) := by omega
    simp [hb, hlt, h2]
  · simp only [Bool.not_eq_true] at hb
    simp [hb]

theorem numPagesOf_succ (O n : Nat) : numPagesOf O (n + 1) = n / page_size O + 1 := by
  simp [numPagesOf]

theorem numPagesOf_of_mod_eq_zero (O : Nat) {n : Nat} (h : n % page_size O = 0) :
    numPagesOf O n = n / page_size O := by
  rcases Nat.eq_zero_or_pos n with rfl | hn
  · simp [numPagesOf]
  · have hps := page_size_pos O
    have hdm := Nat.div_add_mod n (page_size O)
    obtain ⟨k, hk⟩ : ∃ k, n / page_size O = k + 1 := by
      cases hq : n / page_size O with
      | zero => rw [hq] at hdm; omega
      | succ k => exact ⟨k, rfl⟩
    rw [hk] at hdm
    have hmul : page_size O * (k + 1) = page_size O * k + page_size O := by ring
    have hsub : n - 1 = page_size O * k + (page_size O - 1) := by omega
    rw [numPagesOf, if_neg (by omega), hsub, Nat.mul_add_div hps,
      Nat.div_eq_of_lt (by omega), hk]

theorem numPagesOf_of_mod_ne_zero (O : Nat) {n : Nat} (h : n % page_size O ≠ 0) :
    numPagesOf O n = n / page_size O + 1 := by
  have hn : n ≠ 0 := by rintro rfl; simp at h
  have hps := page_size_pos O
  have hdm := Nat.div_add_mod n (page_size O)
  have hmod := Nat.mod_lt n hps
  have hsub : n - 1 = page_size O * (n / page_size O) + (n % page_size O - 1) := by omega
  rw [numPagesOf, if_neg hn, hsub, Nat.mul_add_div hps,
    Nat.div_eq_of_lt (show n % page_size O - 1 < page_size O by omega)]

theorem usedOf_eq_page_size {O n q : Nat} (h : (q + 1) * page_size O ≤ n) :
    usedOf O n q = page_size O := by
  have hmul : (q + 1) * page_size O = q * page_size O + page_size O := by ring
  unfold usedOf
  omega

theorem mul_le_of_lt_div {O n q : Nat} (h : q < n / page_size O) :
    (q + 1) * page_size O ≤ n :=
  le_trans (Nat.mul_le_mul_right _ h) (Nat.div_mul_le_self n (page_size O))

theorem usedOf_last (O n : Nat) : usedOf O n (n / page_size O) = n % page_size O := by
  have hdm := Nat.div_add_mod n (page_size O)
  have hcomm : n / page_size O * page_size O = page_size O * (n / page_size O) :=
    Nat.mul_comm _ _
  have hmod := Nat.mod_lt n (page_size_pos O)
  unfold usedOf
  omega

theorem usedOf_succ_last (O n : Nat) :
    usedOf O (n + 1) (n / page_size O) = n % page_size O + 1 := by
  have hdm := Nat.div_add_mod n (page_size O)
  have hcomm : n / page_size O * page_size O = page_size O * (n / page_size O) :=
    Nat.mul_comm _ _
  have hmod := Nat.mod_lt n (page_size_pos O)
  unfold usedOf
  omega

theorem page_lt_numPages {O n idx : Nat} (h : idx < n) :
    idx / page_size O < numPagesOf O n := by
  have hn : n ≠ 0 := by omega
  rw [numPagesOf, if_neg hn]
  exact Nat.lt_succ_of_le (Nat.div_le_div_right (by omega))

theorem off_lt_usedOf {O n idx : Nat} (h : idx < n) :
    idx % page_size O < usedOf O n (idx / page_size O) := by
  have hdm := Nat.div_add_mod idx (page_size O)
  have hcomm : idx / page_size O * page_size O = page_size O * (idx / page_size O) :=
    Nat.mul_comm _ _
  have hmod := Nat.mod_lt idx (page_size_pos O)
  unfold usedOf
  omega

theorem dbLookup_cons {T : Type} (p q : Nat) (sl : Slice T) (l : List (Nat × Slice T)) :
    dbLookup ((p, sl) :: l) q = if p = q then some sl else dbLookup l q := by
  unfold dbLookup
  by_cases h : p = q
  · simp [List.find?_cons, h]
  · simp [List.find?_cons, beq_iff_eq, h]

theorem inv_init {T : Type} [Inhabited T] (O R : Nat) :
    Inv O R (VectorCache.init T R) ⟨[], []⟩ [] := by
  refine ⟨rfl, by simp [VectorCache.init, numPagesOf], by simp [VectorCache.init], ?_, ?_⟩
  · intro e he
    have : (VectorCache.init T R).page_table.getD e default = default := by
      simp [VectorCache.init, List.getD_eq_getD_get?, List.getElem?_replicate, he]
    rw [this]
    constructor
    · intro hv; simp [default, Page.valid] at hv
    · intro _
      exact ⟨rfl, by simp [VectorCache.init, numPagesOf]⟩
  · intro p hp
    simp [VectorCache.init] at hp

theorem getD_set_self {α : Type} (l : List α) (e : Nat) (a d : α) (h : e < l.length) :
    (l.set e a).getD e d = a := by
  simp [List.getD_eq_getD_get?, List.getElem?_set_self', h]

theorem getD_set_ne {α : Type} (l : List α) (e i : Nat) (a d : α) (h : e ≠ i) :
    (l.set e a).getD i d = l.getD i d := by
  simp [List.getD_eq_getD_get?, List.getElem?_set_ne h]

theorem getD_snoc_lt {α : Type} (l : List α) (x d : α) {i : Nat} (h : i < l.length) :
    (l ++ [x]).getD i d = l.getD i d := by
  rw [List.getD_append _ _ _ _ h]

theorem getD_snoc_len {α : Type} (l : List α) (x d : α) :
    (l ++ [x]).getD l.length d = x := by
  rw [List.getD_append_right _ _ _ _ (le_refl _)]
  simp

/-- Appending one element does not disturb a correctly-held full page. -/
theorem pageOK_snoc_full {T : Type} [Inhabited T] {O : Nat} {items : List T}
    {q : Nat} {sl : Slice T} (x : T) (hOK : pageOK O items q sl)
    (hfull : (q + 1) * page_size O ≤ items.length) :
    pageOK O (items ++ [x]) q sl := by
  obtain ⟨h1, h2, h3⟩ := hOK
  have hps : usedOf O items.length q = page_size O := usedOf_eq_page_size hfull
  have hps' : usedOf O (items ++ [x]).length q = page_size O := by
    apply usedOf_eq_page_size
    rw [List.length_append]
    omega
  refine ⟨h1, by rw [hps', h2, hps], ?_⟩
  intro j hj
  have hj' : j < page_size O := by rw [h2, hps] at hj; exact hj
  have hmul : (q + 1) * page_size O = q * page_size O + page_size O := by ring
  rw [getD_snoc_lt _ _ _ (by omega)]
  exact h3 j hj

/-- A page number below `num_pages` always finds its slot valid (an invalid
slot has never been touched by any created page). -/
theorem created_slot_valid {T : Type} [Inhabited T] {O R np : Nat} {items : List T}
    {pt : List (Page T)} (hlen : pt.length = page_table_size R)
    (hslots : ∀ e, e < page_table_size R → slotOK O R np items e (pt.getD e default))
    {p : Nat} (hp : p < np) :
    (pt.getD (entry_of R p) default).valid = true := by
  rcases hb : (pt.getD (entry_of R p) default).valid with _ | _
  · exfalso
    have hs := hslots (entry_of R p) (entry_of_lt R p)
    exact (hs.2 hb).2 p hp rfl
  · rfl

/-- Installing a page `p` into its slot preserves the per-slot invariant,
provided the newly installed slot is itself correct, every page counted by the
new `num_pages` is an old page or `p`, and correctly-held pages in other slots
stay correct under the ghost-list change. -/
theorem slots_install {T : Type} [Inhabited T] {O R : Nat} {items items' : List T}
    {vc : VectorCache T} {p np' : Nat} {pg3 : Page T}
    (hlen : vc.page_table.length = page_table_size R)
    (hslots : ∀ e', e' < page_table_size R →
      slotOK O R vc.num_pages items e' (vc.page_table.getD e' default))
    (hnp : vc.num_pages ≤ np')
    (hcover : ∀ q, q < np' → q < vc.num_pages ∨ q = p)
    (htrans : ∀ q sl, q < vc.num_pages → entry_of R q ≠ entry_of R p →
      pageOK O items q sl → pageOK O items' q sl)
    (hp3 : slotOK O R np' items' (entry_of R p) pg3) :
    ∀ e', e' < page_table_size R →
      slotOK O R np' items' e' ((vc.page_table.set (entry_of R p) pg3).getD e' default) := by
  intro e' he'
  by_cases hee : entry_of R p = e'
  · rw [← hee, getD_set_self _ _ _ _ (by rw [hlen]; exact entry_of_lt R p)]
    exact hp3
  · rw [getD_set_ne _ _ _ _ _ hee]
    have hold := hslots e' he'
    constructor
    · intro hv
      obtain ⟨h1, h2, h3⟩ := hold.1 hv
      refine ⟨lt_of_lt_of_le h1 hnp, h2, ?_⟩
      apply htrans _ _ h1 ?_ h3
      rw [h2]
      exact Ne.symm hee
    · intro hv
      obtain ⟨h1, h2⟩ := hold.2 hv
      refine ⟨h1, ?_⟩
      intro q hq
      rcases hcover q hq with hq' | rfl
      · exact h2 q hq'
      · exact hee

/-- Installing a page `p` into its slot preserves the store invariant: every
other created page is still resident elsewhere or retrievable from the store,
given that the page evicted from `p`'s slot (if any) was saved first. -/
theorem storeOK_install {T : Type} [Inhabited T] {O R : Nat} {items items' : List T}
    {vc : VectorCache T} {st st' : HonestSt T} {p np' : Nat} {pg3 : Page T}
    {vc' : VectorCache T}
    (hvt : vc'.page_table = vc.page_table.set (entry_of R p) pg3)
    (hvn : vc'.num_pages = np')
    (hlen : vc.page_table.length = page_table_size R)
    (hslots : ∀ e', e' < page_table_size R →
      slotOK O R vc.num_pages items e' (vc.page_table.getD e' default))
    (hstore : storeOK O R vc st items)
    (hp3v : pg3.valid = true) (hp3n : pg3.page_number = p)
    (hcover : ∀ q, q < np' → q < vc.num_pages ∨ q = p)
    (htrans : ∀ q sl, q < vc.num_pages → q ≠ p →
      pageOK O items q sl → pageOK O items' q sl)
    (hsv : st'.saves = st.saves ∨
      (st'.saves = ((vc.page_table.getD (entry_of R p) default).page_number,
                    (vc.page_table.getD (entry_of R p) default).slice) :: st.saves ∧
        (vc.page_table.getD (entry_of R p) default).valid = true))
    (hev_saved : (vc.page_table.getD (entry_of R p) default).valid = true →
      (vc.page_table.getD (entry_of R p) default).page_number ≠ p →
      st'.saves = ((vc.page_table.getD (entry_of R p) default).page_number,
                   (vc.page_table.getD (entry_of R p) default).slice) :: st.saves) :
    storeOK O R vc' st' items' := by
  intro q hq
  rw [hvn] at hq
  by_cases hqp : q = p
  · subst hqp
    left
    rw [hvt, getD_set_self _ _ _ _ (by rw [hlen]; exact entry_of_lt R q)]
    exact ⟨hp3v, hp3n⟩
  · rcases hcover q hq with hqnp | rfl
    swap
    · exact absurd rfl hqp
    by_cases hee : entry_of R q = entry_of R p
    · have hvalid : (vc.page_table.getD (entry_of R p) default).valid = true := by
        rw [← hee]
        exact created_slot_valid hlen hslots hqnp
      by_cases hres : (vc.page_table.getD (entry_of R p) default).page_number = q
      · have hsave := hev_saved hvalid (by rw [hres]; exact hqp)
        right
        refine ⟨(vc.page_table.getD (entry_of R p) default).slice, ?_, ?_⟩
        · rw [hsave, dbLookup_cons, if_pos hres]
        · have hclause := (hslots (entry_of R p) (entry_of_lt R p)).1 hvalid
          exact htrans q _ hqnp hqp (hres ▸ hclause.2.2)
      · rcases hstore q hqnp with ⟨hv2, hn2⟩ | ⟨sl, hl, hOK⟩
        · rw [hee] at hn2
          exact absurd hn2 hres
        · right
          refine ⟨sl, ?_, htrans q sl hqnp hqp hOK⟩
          rcases hsv with hsv | ⟨hsv, _⟩
          · rw [hsv]; exact hl
          · rw [hsv, dbLookup_cons, if_neg hres]; exact hl
    · rcases hstore q hqnp with ⟨hv2, hn2⟩ | ⟨sl, hl, hOK⟩
      · left
        rw [hvt, getD_set_ne _ _ _ _ _ (Ne.symm hee)]
        exact ⟨hv2, hn2⟩
      · right
        refine ⟨sl, ?_, htrans q sl hqnp hqp hOK⟩
        rcases hsv with hsv | ⟨hsv, hvld⟩
        · rw [hsv]; exact hl
        · rw [hsv, dbLookup_cons, if_neg ?_]
          · exact hl
          · intro hc
            have hclause := (hslots (entry_of R p) (entry_of_lt R p)).1 hvld
            exact hee (by rw [← hc]; exact hclause.2.1)

theorem dbLookup_mem {T : Type} {l : List (Nat × Slice T)} {q : Nat} {sl : Slice T}
    (h : dbLookup l q = some sl) : (q, sl) ∈ l := by
  unfold dbLookup at h
  cases hf : l.find? (fun e => e.1 == q) with
  | none => rw [hf] at h; cases h
  | some e =>
    rw [hf] at h
    have hmem := List.mem_of_find?_eq_some hf
    have hpred := List.find?_some hf
    cases e with
    | mk e1 e2 =>
      have h1 : e1 = q := by simpa using hpred
      have h2 : e2 = sl := by simpa using h
      rw [← h1, ← h2]
      exact hmem

/-- One `push_back` against the honest store, from an invariant state, always
completes (never terminates the program) and preserves the invariant with the
new item appended to the ghost list. -/
theorem push_inv {T : Type} [Inhabited T] {O R : Nat} {vc : VectorCache T}
    {st : HonestSt T} {items : List T} (h : Inv O R vc st items) (x : T) :
    ∃ vc' st', push_back O R (honest T) vc st x = some (vc', st') ∧
      Inv O R vc' st' (items ++ [x]) ∧ saveLoadDiscipline st st' vc.num_pages := by
  obtain ⟨hsz, hnp, hlen, hslots, hstore⟩ := h
  have hps := page_size_pos O
  have hdm := Nat.div_add_mod items.length (page_size O)
  have hcomm : items.length / page_size O * page_size O
      = page_size O * (items.length / page_size O) := Nat.mul_comm _ _
  have hmodlt := Nat.mod_lt items.length hps
  simp only [push_back]
  rw [hsz, page_number_of_eq, page_offset_of_eq]
  by_cases hC : (vc.page_table.getD (entry_of R (items.length / page_size O)) default).page_number
      ≠ items.length / page_size O ∨ items.length / page_size O ≥ vc.num_pages
  · -- a swap is needed
    rw [if_pos hC]
    by_cases hge : items.length / page_size O ≥ vc.num_pages
    · -- a brand new page is created
      rw [if_pos hge]
      have hmod0 : items.length % page_size O = 0 := by
        by_contra h0
        have h1 := numPagesOf_of_mod_ne_zero O h0
        omega
      have hpnp : items.length / page_size O = vc.num_pages := by
        have h1 := numPagesOf_of_mod_eq_zero O hmod0
        omega
      have hidx : items.length / page_size O * page_size O = items.length := by omega
      cases hvb : (vc.page_table.getD (entry_of R (items.length / page_size O)) default).valid with
      | true =>
        rw [if_pos rfl]
        simp only [honest, push_back_write, getD_set_self _ _ _ _
          (by rw [hlen]; exact entry_of_lt R (items.length / page_size O)), hmod0]
        rw [if_pos (Nat.succ_pos _), List.set_set]
        refine ⟨_, _, rfl, ⟨?_, ?_, ?_, ?_, ?_⟩, ?_⟩
        · simp [hsz, List.length_append]
        · simp only [List.length_append, List.length_singleton]
          rw [numPagesOf_succ]
          omega
        · simp [List.length_set, hlen]
        · apply slots_install hlen hslots (Nat.le_succ _)
          · intro q hq
            have hq' : q < vc.num_pages + 1 := hq
            omega
          · intro q sl hq hent hOK
            exact pageOK_snoc_full x hOK (mul_le_of_lt_div (by omega))
          · constructor
            · intro _
              refine ⟨?_, ?_, ?_, ?_, ?_⟩
              · show items.length / page_size O < vc.num_pages + 1
                omega
              · rfl
              · show ((List.replicate (page_size O) default).set 0 x).length = page_size O
                rw [List.length_set, List.length_replicate]
              · show 0 + 1 = usedOf O (items ++ [x]).length (items.length / page_size O)
                rw [List.length_append, List.length_singleton, usedOf_succ_last, hmod0]
              · intro j hj
                have hj' : j < 0 + 1 := hj
                have hj0 : j = 0 := by omega
                subst hj0
                show ((List.replicate (page_size O) default).set 0 x).getD 0 default
                  = (items ++ [x]).getD (items.length / page_size O * page_size O + 0) default
                rw [getD_set_self _ _ _ _ (by rw [List.length_replicate]; exact hps),
                  show items.length / page_size O * page_size O + 0 = items.length by omega,
                  getD_snoc_len]
            · intro hfalse
              exact Bool.noConfusion (show true = false from hfalse)
        · refine storeOK_install rfl rfl hlen hslots hstore rfl rfl ?_ ?_ ?_ ?_
          · intro q hq
            have hq' : q < vc.num_pages + 1 := hq
            omega
          · intro q sl hq hne hOK
            exact pageOK_snoc_full x hOK (mul_le_of_lt_div (by omega))
          · exact Or.inr ⟨rfl, hvb⟩
          · intro _ _
            rfl
        · exact ⟨Or.inr ⟨_, _, rfl,
            ((hslots _ (entry_of_lt R (items.length / page_size O))).1 hvb).1⟩,
            Or.inl rfl⟩
      | false =>
        rw [if_neg Bool.false_ne_true]
        simp only [honest, push_back_write, getD_set_self _ _ _ _
          (by rw [hlen]; exact entry_of_lt R (items.length / page_size O)), hmod0]
        rw [if_pos (Nat.succ_pos _), List.set_set]
        refine ⟨_, _, rfl, ⟨?_, ?_, ?_, ?_, ?_⟩, ?_⟩
        · simp [hsz, List.length_append]
        · simp only [List.length_append, List.length_singleton]
          rw [numPagesOf_succ]
          omega
        · simp [List.length_set, hlen]
        · apply slots_install hlen hslots (Nat.le_succ _)
          · intro q hq
            have hq' : q < vc.num_pages + 1 := hq
            omega
          · intro q sl hq hent hOK
            exact pageOK_snoc_full x hOK (mul_le_of_lt_div (by omega))
          · constructor
            · intro _
              refine ⟨?_, ?_, ?_, ?_, ?_⟩
              · show items.length / page_size O < vc.num_pages + 1
                omega
              · rfl
              · show ((List.replicate (page_size O) default).set 0 x).length = page_size O
                rw [List.length_set, List.length_replicate]
              · show 0 + 1 = usedOf O (items ++ [x]).length (items.length / page_size O)
                rw [List.length_append, List.length_singleton, usedOf_succ_last, hmod0]
              · intro j hj
                have hj' : j < 0 + 1 := hj
                have hj0 : j = 0 := by omega
                subst hj0
                show ((List.replicate (page_size O) default).set 0 x).getD 0 default
                  = (items ++ [x]).getD (items.length / page_size O * page_size O + 0) default
                rw [getD_set_self _ _ _ _ (by rw [List.length_replicate]; exact hps),
                  show items.length / page_size O * page_size O + 0 = items.length by omega,
                  getD_snoc_len]
            · intro hfalse
              exact Bool.noConfusion (show true = false from hfalse)
        · refine storeOK_install rfl rfl hlen hslots hstore rfl rfl ?_ ?_ ?_ ?_
          · intro q hq
            have hq' : q < vc.num_pages + 1 := hq
            omega
          · intro q sl hq hne hOK
            exact pageOK_snoc_full x hOK (mul_le_of_lt_div (by omega))
          · exact Or.inl rfl
          · intro hcontra _
            rw [hvb] at hcontra
            cases hcontra
        · exact ⟨Or.inl rfl, Or.inl rfl⟩
    · -- an existing page is swapped back in
      rw [if_neg hge]
      have hplt := lt_of_not_ge hge
      have hne : (vc.page_table.getD (entry_of R (items.length / page_size O))
          default).page_number ≠ items.length / page_size O := hC.resolve_right hge
      have hvalid := @created_slot_valid T _ O R vc.num_pages items vc.page_table hlen hslots
        _ hplt
      have hmodne : items.length % page_size O ≠ 0 := by
        intro h0
        have h1 := numPagesOf_of_mod_eq_zero O h0
        omega
      have hnpp : vc.num_pages = items.length / page_size O + 1 := by
        rw [hnp, numPagesOf_of_mod_ne_zero O hmodne]
      obtain ⟨slp, hlook, hOKp⟩ :
          ∃ sl, dbLookup st.saves (items.length / page_size O) = some sl ∧
            pageOK O items (items.length / page_size O) sl := by
        rcases hstore _ hplt with ⟨hv2, hn2⟩ | hs
        · exact absurd hn2 hne
        · exact hs
      have hsizep : slp.size = items.length % page_size O := by
        rw [hOKp.2.1, usedOf_last]
      rw [if_pos hvalid]
      simp only [honest]
      rw [dbLookup_cons, if_neg hne, hlook]
      simp only [push_back_write, getD_set_self _ _ _ _
        (by rw [hlen]; exact entry_of_lt R (items.length / page_size O)), hsizep]
      rw [if_pos (Nat.lt_succ_self _), List.set_set]
      refine ⟨_, _, rfl, ⟨?_, ?_, ?_, ?_, ?_⟩, ?_⟩
      · simp [hsz, List.length_append]
      · simp only [List.length_append, List.length_singleton]
        rw [numPagesOf_succ]
        exact hnpp
      · simp [List.length_set, hlen]
      · apply slots_install hlen hslots (le_refl _) (fun q hq => Or.inl hq)
        · intro q sl hq hent hOK
          apply pageOK_snoc_full x hOK
          apply mul_le_of_lt_div
          have hqp : q ≠ items.length / page_size O := by
            intro hqp
            exact hent (by rw [hqp])
          omega
        · constructor
          · intro _
            refine ⟨?_, ?_, ?_, ?_, ?_⟩
            · show items.length / page_size O < vc.num_pages
              exact hplt
            · rfl
            · show (slp.start.set (items.length % page_size O) x).length = page_size O
              rw [List.length_set]; exact hOKp.1
            · show items.length % page_size O + 1 = usedOf O (items ++ [x]).length
                (items.length / page_size O)
              rw [List.length_append, List.length_singleton, usedOf_succ_last]
            · intro j hj
              show (slp.start.set (items.length % page_size O) x).getD j default
                = (items ++ [x]).getD (items.length / page_size O * page_size O + j) default
              have hj' : j < items.length % page_size O + 1 := hj
              rcases Nat.lt_succ_iff_lt_or_eq.mp hj' with hjlt | rfl
              · rw [getD_set_ne _ _ _ _ _ (by omega), getD_snoc_lt _ _ _ (by omega)]
                exact hOKp.2.2 j (by omega)
              · rw [getD_set_self _ _ _ _ (by rw [hOKp.1]; exact hmodlt),
                  show items.length / page_size O * page_size O + items.length % page_size O
                    = items.length by omega,
                  getD_snoc_len]
          · intro hfalse
            exact Bool.noConfusion (show true = false from hfalse)
      · refine storeOK_install rfl rfl hlen hslots hstore rfl rfl ?_ ?_ ?_ ?_
        · exact fun q hq => Or.inl hq
        · intro q sl hq hne2 hOK
          exact pageOK_snoc_full x hOK (mul_le_of_lt_div (by omega))
        · exact Or.inr ⟨rfl, hvalid⟩
        · intro _ _
          rfl
      · exact ⟨Or.inr ⟨_, _, rfl,
          ((hslots _ (entry_of_lt R (items.length / page_size O))).1 hvalid).1⟩,
          Or.inr ⟨_, rfl, slp, dbLookup_mem hlook⟩⟩
  · -- cache hit: the target page is resident in its slot
    rw [if_neg hC]
    have hC' := not_or.mp hC
    have heq : (vc.page_table.getD (entry_of R (items.length / page_size O)) default).page_number
        = items.length / page_size O := not_not.mp hC'.1
    have hplt : items.length / page_size O < vc.num_pages := lt_of_not_ge hC'.2
    have hmodne : items.length % page_size O ≠ 0 := by
      intro h0
      have h1 := numPagesOf_of_mod_eq_zero O h0
      omega
    have hnpp : vc.num_pages = items.length / page_size O + 1 := by
      rw [hnp, numPagesOf_of_mod_ne_zero O hmodne]
    have hvalid := @created_slot_valid T _ O R vc.num_pages items vc.page_table hlen hslots
      _ hplt
    have hclause := (hslots _ (entry_of_lt R (items.length / page_size O))).1 hvalid
    rw [heq] at hclause
    obtain ⟨hOKlen, hOKsize, hOKcont⟩ := hclause.2.2
    have hsize : (vc.page_table.getD (entry_of R (items.length / page_size O)) default).slice.size
        = items.length % page_size O := by
      rw [hOKsize, usedOf_last]
    simp only [push_back_write]
    rw [hsize, if_pos (Nat.lt_succ_self _)]
    refine ⟨_, _, rfl, ⟨?_, ?_, ?_, ?_, ?_⟩, ?_⟩
    · -- _size
      simp [hsz, List.length_append]
    · -- num_pages
      simp only [List.length_append, List.length_singleton]
      rw [numPagesOf_succ]
      exact hnpp
    · -- table length
      simp [List.length_set, hlen]
    · -- slots
      apply slots_install hlen hslots (le_refl _) (fun q hq => Or.inl hq)
      · intro q sl hq hent hOK
        apply pageOK_snoc_full x hOK
        apply mul_le_of_lt_div
        have hqp : q ≠ items.length / page_size O := by
          intro hqp
          exact hent (by rw [hqp])
        omega
      · -- the updated slot itself
        constructor
        · intro _
          refine ⟨?_, ?_, ?_, ?_, ?_⟩
          · show (vc.page_table.getD (entry_of R (items.length / page_size O)) default).page_number
              < vc.num_pages
            rw [heq]; exact hplt
          · show entry_of R
                (vc.page_table.getD (entry_of R (items.length / page_size O)) default).page_number
              = entry_of R (items.length / page_size O)
            rw [heq]
          · show ((vc.page_table.getD (entry_of R (items.length / page_size O))
                default).slice.start.set (items.length % page_size O) x).length = page_size O
            rw [List.length_set]; exact hOKlen
          · show items.length % page_size O + 1 = usedOf O (items ++ [x]).length
              (vc.page_table.getD (entry_of R (items.length / page_size O)) default).page_number
            rw [heq, List.length_append, List.length_singleton, usedOf_succ_last]
          · intro j hj
            show ((vc.page_table.getD (entry_of R (items.length / page_size O))
                default).slice.start.set (items.length % page_size O) x).getD j default
              = (items ++ [x]).getD
                ((vc.page_table.getD (entry_of R (items.length / page_size O))
                  default).page_number * page_size O + j) default
            have hj' : j < items.length % page_size O + 1 := hj
            rw [heq]
            rcases Nat.lt_succ_iff_lt_or_eq.mp hj' with hjlt | rfl
            · rw [getD_set_ne _ _ _ _ _ (by omega), getD_snoc_lt _ _ _ (by omega)]
              exact hOKcont j (by omega)
            · rw [getD_set_self _ _ _ _ (by rw [hOKlen]; exact hmodlt),
                show items.length / page_size O * page_size O + items.length % page_size O
                  = items.length by omega,
                getD_snoc_len]
        · intro hfalse
          have h2 : (vc.page_table.getD (entry_of R (items.length / page_size O))
              default).valid = false := hfalse
          rw [hvalid] at h2
          cases h2
    · -- store
      refine storeOK_install rfl rfl hlen hslots hstore ?_ ?_ ?_ ?_ ?_ ?_
      · exact hvalid
      · exact heq
      · exact fun q hq => Or.inl hq
      · intro q sl hq hne hOK
        exact pageOK_snoc_full x hOK (mul_le_of_lt_div (by omega))
      · exact Or.inl rfl
      · intro _ hne
        exact absurd heq hne
    · exact ⟨Or.inl rfl, Or.inl rfl⟩

/-- One `operator[]` call against the honest store, from an invariant state:
an in-range index returns exactly the `idx`-th appended value, an out-of-range
index fails with the out-of-range error, and the invariant is preserved either
way. -/
theorem readAt_spec {T : Type} [Inhabited T] {O R : Nat} {vc : VectorCache T}
    {st : HonestSt T} {items : List T} (h : Inv O R vc st items) (idx : Nat) :
    (idx < items.length →
      (readAt O R (honest T) vc st idx).1 = Except.ok (items.getD idx default)) ∧
    (items.length ≤ idx →
      (readAt O R (honest T) vc st idx).1 = Except.error VCError.indexOutOfRange) ∧
    Inv O R (readAt O R (honest T) vc st idx).2.1 (readAt O R (honest T) vc st idx).2.2 items ∧
    saveLoadDiscipline st (readAt O R (honest T) vc st idx).2.2 vc.num_pages := by
  obtain ⟨hsz, hnp, hlen, hslots, hstore⟩ := h
  have hps := page_size_pos O
  have hdm := Nat.div_add_mod idx (page_size O)
  have hcomm : idx / page_size O * page_size O
      = page_size O * (idx / page_size O) := Nat.mul_comm _ _
  have hmodlt := Nat.mod_lt idx hps
  by_cases hidx : idx ≥ vc._size
  · -- out of range
    rw [show readAt O R (honest T) vc st idx
        = (Except.error VCError.indexOutOfRange, vc, st) by
      unfold readAt; rw [if_pos hidx]]
    exact ⟨fun hlt => absurd hlt (by omega), fun _ => rfl,
      ⟨hsz, hnp, hlen, hslots, hstore⟩, Or.inl rfl, Or.inl rfl⟩
  · -- in range
    have hlt : idx < items.length := by omega
    have hplt : idx / page_size O < vc.num_pages := by
      rw [hnp]
      exact page_lt_numPages hlt
    have hvalid := @created_slot_valid T _ O R vc.num_pages items vc.page_table hlen hslots
      _ hplt
    simp only [readAt]
    rw [if_neg hidx, page_number_of_eq, page_offset_of_eq]
    by_cases heq : (vc.page_table.getD (entry_of R (idx / page_size O))
        default).page_number = idx / page_size O
    · -- cache hit
      rw [if_pos ⟨heq, hvalid⟩]
      have hclause := (hslots _ (entry_of_lt R (idx / page_size O))).1 hvalid
      rw [heq] at hclause
      obtain ⟨hOKlen, hOKsize, hOKcont⟩ := hclause.2.2
      have hoff : idx % page_size O
          < (vc.page_table.getD (entry_of R (idx / page_size O)) default).slice.size := by
        rw [hOKsize]
        exact off_lt_usedOf hlt
      simp only [Slice.read]
      rw [if_pos hoff]
      refine ⟨fun _ => ?_, fun hge => absurd hge (by omega),
        ⟨hsz, hnp, hlen, hslots, hstore⟩, Or.inl rfl, Or.inl rfl⟩
      have hval := hOKcont _ hoff
      rw [hval, show idx / page_size O * page_size O + idx % page_size O = idx by omega]
    · -- resident page differs: evict it, then load the wanted page
      rw [if_neg (fun hc => heq hc.1), if_pos ⟨heq, hvalid⟩]
      have hclause := (hslots _ (entry_of_lt R (idx / page_size O))).1 hvalid
      obtain ⟨slp, hlook, hOKp⟩ :
          ∃ sl, dbLookup st.saves (idx / page_size O) = some sl ∧
            pageOK O items (idx / page_size O) sl := by
        rcases hstore _ hplt with ⟨hv2, hn2⟩ | hs
        · exact absurd hn2 heq
        · exact hs
      simp only [honest]
      rw [dbLookup_cons, if_neg heq, hlook]
      simp only [Slice.read]
      have hoff : idx % page_size O < slp.size := by
        rw [hOKp.2.1]
        exact off_lt_usedOf hlt
      rw [if_pos hoff]
      refine ⟨fun _ => ?_, fun hge => absurd hge (by omega), ⟨?_, ?_, ?_, ?_, ?_⟩, ?_⟩
      · have hval := hOKp.2.2 _ hoff
        rw [hval, show idx / page_size O * page_size O + idx % page_size O = idx by omega]
      · exact hsz
      · exact hnp
      · simp [List.length_set, hlen]
      · apply slots_install hlen hslots (le_refl _) (fun q hq => Or.inl hq)
          (fun q sl _ _ hOK => hOK)
        constructor
        · intro _
          exact ⟨hplt, rfl, hOKp.1, hOKp.2.1, hOKp.2.2⟩
        · intro hfalse
          have h2 : (vc.page_table.getD (entry_of R (idx / page_size O))
              default).valid = false := hfalse
          rw [hvalid] at h2
          cases h2
      · refine storeOK_install rfl rfl hlen hslots hstore ?_ rfl
          (fun q hq => Or.inl hq) (fun q sl _ _ hOK => hOK) ?_ ?_
        · exact hvalid
        · exact Or.inr ⟨rfl, hvalid⟩
        · intro _ _
          rfl
      · exact ⟨Or.inr ⟨_, _, rfl, hclause.1⟩,
          Or.inr ⟨_, rfl, slp, dbLookup_mem hlook⟩⟩

/-- One `get_partition` call against the honest store, from an invariant
state: an existing partition is returned as a correct slice view, a partition
number at or beyond `num_pages` fails with the partition-out-of-range error,
and the invariant is preserved either way. -/
theorem get_partition_spec {T : Type} [Inhabited T] {O R : Nat} {vc : VectorCache T}
    {st : HonestSt T} {items : List T} (h : Inv O R vc st items) (p : Nat) :
    (p < vc.num_pages →
      ∃ sl, (get_partition O R (honest T) vc st p).1 = Except.ok sl ∧
        pageOK O items p sl) ∧
    (vc.num_pages ≤ p →
      (get_partition O R (honest T) vc st p).1 = Except.error VCError.partitionOutOfRange) ∧
    Inv O R (get_partition O R (honest T) vc st p).2.1
      (get_partition O R (honest T) vc st p).2.2 items ∧
    saveLoadDiscipline st (get_partition O R (honest T) vc st p).2.2 vc.num_pages := by
  obtain ⟨hsz, hnp, hlen, hslots, hstore⟩ := h
  by_cases hp : p ≥ vc.num_pages
  · -- partition out of range
    rw [show get_partition O R (honest T) vc st p
        = (Except.error VCError.partitionOutOfRange, vc, st) by
      unfold get_partition; rw [if_pos hp]]
    exact ⟨fun hlt => absurd hlt (by omega), fun _ => rfl,
      ⟨hsz, hnp, hlen, hslots, hstore⟩, Or.inl rfl, Or.inl rfl⟩
  · have hplt : p < vc.num_pages := lt_of_not_ge hp
    have hvalid := @created_slot_valid T _ O R vc.num_pages items vc.page_table hlen hslots
      _ hplt
    simp only [get_partition]
    rw [if_neg hp]
    by_cases heq : (vc.page_table.getD (entry_of R p) default).page_number = p
    · -- resident: return the slot's slice
      rw [if_neg (fun hc => hc.1 heq), if_neg (by rw [hvalid]; simp)]
      have hclause := (hslots _ (entry_of_lt R p)).1 hvalid
      rw [heq] at hclause
      refine ⟨fun _ => ⟨_, rfl, ?_, ?_, ?_⟩, fun hge => absurd hge (by omega),
        ⟨hsz, hnp, hlen, hslots, hstore⟩, Or.inl rfl, Or.inl rfl⟩
      · exact hclause.2.2.1
      · exact hclause.2.2.2.1
      · exact hclause.2.2.2.2
    · -- some other page resident: evict it (discarding the save Result), load `p`
      rw [if_pos ⟨heq, hvalid⟩]
      obtain ⟨slp, hlook, hOKp⟩ :
          ∃ sl, dbLookup st.saves p = some sl ∧ pageOK O items p sl := by
        rcases hstore _ hplt with ⟨hv2, hn2⟩ | hs
        · exact absurd hn2 heq
        · exact hs
      have hclause := (hslots _ (entry_of_lt R p)).1 hvalid
      simp only [honest]
      rw [dbLookup_cons, if_neg heq, hlook]
      refine ⟨fun _ => ⟨_, rfl, ?_, ?_, ?_⟩, fun hge => absurd hge (by omega),
        ⟨?_, ?_, ?_, ?_, ?_⟩, ?_⟩
      · exact hOKp.1
      · exact hOKp.2.1
      · exact hOKp.2.2
      · exact hsz
      · exact hnp
      · simp [List.length_set, hlen]
      · apply slots_install hlen hslots (le_refl _) (fun q hq => Or.inl hq)
          (fun q sl _ _ hOK => hOK)
        constructor
        · intro _
          exact ⟨hplt, rfl, hOKp.1, hOKp.2.1, hOKp.2.2⟩
        · intro hfalse
          have h2 : (vc.page_table.getD (entry_of R p) default).valid = false := hfalse
          rw [hvalid] at h2
          cases h2
      · refine storeOK_install rfl rfl hlen hslots hstore ?_ rfl
          (fun q hq => Or.inl hq) (fun q sl _ _ hOK => hOK) ?_ ?_
        · exact hvalid
        · exact Or.inr ⟨rfl, hvalid⟩
        · intro _ _
          rfl
      · exact ⟨Or.inr ⟨_, _, rfl, hclause.1⟩,
          Or.inr ⟨_, rfl, slp, dbLookup_mem hlook⟩⟩

/-- Every reachable state satisfies the invariant. -/
theorem reach_inv {T : Type} [Inhabited T] {O R : Nat} {vc : VectorCache T}
    {st : HonestSt T} {items : List T} (h : Reach O R vc st items) :
    Inv O R vc st items := by
  induction h with
  | init => exact inv_init O R
  | push hr heq ih =>
    obtain ⟨vc2, st2, heq2, hinv2, _⟩ := push_inv ih _
    rw [heq] at heq2
    injection heq2 with h2
    obtain ⟨rfl, rfl⟩ : _ ∧ _ :=
      ⟨congrArg Prod.fst h2.symm, congrArg Prod.snd h2.symm⟩
    exact hinv2
  | read hr ih => exact (readAt_spec ih _).2.2.1
  | getp hr ih => exact (get_partition_spec ih _).2.2.1

theorem push_all_reach {T : Type} [Inhabited T] {O R : Nat} :
    ∀ (xs : List T) {vc : VectorCache T} {st : HonestSt T} {items : List T}
      {vc' : VectorCache T} {st' : HonestSt T},
      Reach O R vc st items →
      push_all O R (honest T) vc st xs = some (vc', st') →
      Reach O R vc' st' (items ++ xs) := by
  intro xs
  induction xs with
  | nil =>
    intro vc st items vc' st' hr heq
    simp only [push_all, Option.some.injEq] at heq
    obtain ⟨rfl, rfl⟩ : vc = vc' ∧ st = st' := by
      constructor
      · exact congrArg Prod.fst heq
      · exact congrArg Prod.snd heq
    simpa using hr
  | cons y ys ih =>
    intro vc st items vc' st' hr heq
    simp only [push_all, Option.bind_eq_bind, bind, Option.bind] at heq
    cases hstep : push_back O R (honest T) vc st y with
    | none => rw [hstep] at heq; cases heq
    | some s2 =>
      rw [hstep] at heq
      have hr2 : Reach O R s2.1 s2.2 (items ++ [y]) := Reach.push hr (by rw [hstep])
      have := ih hr2 heq
      rwa [List.append_assoc, List.singleton_append] at this

theorem numPagesOf_eq_ceil (O n : Nat) :
    numPagesOf O n = if n = 0 then 0 else (n + page_size O - 1) / page_size O := by
  cases n with
  | zero => simp [numPagesOf]
  | succ m =>
    have hps := page_size_pos O
    rw [numPagesOf, if_neg (Nat.succ_ne_zero m), if_neg (Nat.succ_ne_zero m),
      Nat.succ_sub_one, show m + 1 + page_size O - 1 = m + page_size O by omega,
      Nat.add_div_right _ hps]

theorem exReach : Reach 2 2 exVC exSt [10, 20, 30, 40, 50] := by
  have h := push_all_reach (T := Int) [10, 20, 30, 40, 50] Reach.init
    (show push_all 2 2 (honest Int) (VectorCache.init Int 2) ⟨[], []⟩ [10, 20, 30, 40, 50]
      = some (exVC, exSt) by decide)
  simpa using h

/-- C1: against a backing store whose `load(p)` returns exactly the contents
most recently saved for `p` (the honest store), along any sequence of
`push_back`/`operator[]`/`get_partition` calls, every in-range indexed read
`at(idx)` returns the `idx`-th appended value — in particular also when the
page holding `idx` has been evicted and reloaded any number of times in
between. -/
theorem C1_indexed_read_returns_appended_value {T : Type} [Inhabited T] {O R : Nat}
    {vc : VectorCache T} {st : HonestSt T} {items : List T}
    (h : Reach O R vc st items) {idx : Nat} (hidx : idx < items.length) :
    (readAt O R (honest T) vc st idx).1 = Except.ok (items.getD idx default) :=
  (readAt_spec (reach_inv h) idx).1 hidx

theorem C1_witness :
    (readAt 2 2 (honest Int) exVC exSt 4).1
      = Except.ok (([10, 20, 30, 40, 50] : List Int).getD 4 default) :=
  C1_indexed_read_returns_appended_value exReach (by decide)

/-- C2 (the code violates the claim): a failed backing-store save during
eviction is silently swallowed by `push_back` (vector_cache.hpp:210, the
Result is discarded) and by `get_partition` (line 341, marked
`TODO: Throw on save failure`).  With a saver rejecting page 0, the 17 appends
of `0..16` complete normally (`size() == 17`) although the eviction save of
page 0 failed; with a saver rejecting page 4, `get_partition 0` returns the
page-0 slice successfully although its eviction save of page 4 failed.  Only
`operator[]` checks the save Result (lines 259-262). -/
theorem C2_backing_store_save_failures_swallowed :
    (c2RunA.map fun s => (s.2.failedSaves, s.1.size)) = some ([0], 17) ∧
    (c2RunB.bind fun s => some ((get_partition 2 2 (failingOn Int 4) s.1 s.2 0).1,
        (get_partition 2 2 (failingOn Int 4) s.1 s.2 0).2.2.failedSaves))
      = some (Except.ok ⟨[0, 1, 2, 3], 4⟩, [4]) := by
  constructor
  · decide
  · rfl

/-- C3 (the code violates the claim): the `static_assert` at
vector_cache.hpp:114 compares `page_offset_bits + page_index_bits` against
`sizeof(std::size_t)` — the size in bytes (8), not the bit width (64) the spec
and the class's own documentation ("Consider a 64 bit index ...") prescribe.
The configuration `offset_bits = 4`, `index_bits = 4` (sum 8, far below the
64-bit width) is rejected by the code but accepted by the spec. -/
theorem C3_static_assert_compares_bits_to_sizeof :
    config_accepted 4 4 = false ∧ spec_config_accepted 4 4 = true := by
  constructor
  · decide
  · decide

/-- C4: the spec's concrete scenario with `offset_bits=2`, `index_bits=2`:
appending `0..15` records zero save calls; appending `100` records exactly one
save call, for page 0, with a view of length 4 containing `[0,1,2,3]`;
afterwards `size() == 17` and `bytes() == 5 * 4 * sizeof(int)` with
`sizeof(int) = 4`. -/
theorem C4_concrete_eviction_scenario :
    (c4Run1.map fun s => s.2.saves) = some [] ∧
    (c4Run2.map fun s => s.2.saves) = some [(0, ⟨[0, 1, 2, 3], 4⟩)] ∧
    (c4Run2.map fun s => s.1.size) = some 17 ∧
    (c4Run2.map fun s => s.1.bytes 2 4) = some (5 * 4 * 4) := by
  refine ⟨?_, ?_, ?_, ?_⟩
  · decide
  · decide
  · decide
  · decide

/-- C5: in every reachable state, `at(idx)` succeeds exactly for
`idx < size()` and fails with the index-out-of-range error for
`idx >= size()`; `get_partition(p)` succeeds exactly for
`p < num_partitions()` and fails with the partition-out-of-range error for
`p >= num_partitions()`. -/
theorem C5_bounds_checking {T : Type} [Inhabited T] {O R : Nat}
    {vc : VectorCache T} {st : HonestSt T} {items : List T}
    (h : Reach O R vc st items) :
    (∀ idx, idx < vc.size → ∃ v, (readAt O R (honest T) vc st idx).1 = Except.ok v) ∧
    (∀ idx, vc.size ≤ idx →
      (readAt O R (honest T) vc st idx).1 = Except.error VCError.indexOutOfRange) ∧
    (∀ p, p < vc.num_partitions →
      ∃ sl, (get_partition O R (honest T) vc st p).1 = Except.ok sl) ∧
    (∀ p, vc.num_partitions ≤ p →
      (get_partition O R (honest T) vc st p).1 = Except.error VCError.partitionOutOfRange) := by
  have hinv := reach_inv h
  have hsz : vc._size = items.length := hinv.1
  refine ⟨?_, ?_, ?_, ?_⟩
  · intro idx hidx
    exact ⟨_, (readAt_spec hinv idx).1 (by rw [← hsz]; exact hidx)⟩
  · intro idx hidx
    exact (readAt_spec hinv idx).2.1 (by rw [← hsz]; exact hidx)
  · intro p hp
    obtain ⟨sl, hsl, _⟩ := (get_partition_spec hinv p).1 hp
    exact ⟨sl, hsl⟩
  · intro p hp
    exact (get_partition_spec hinv p).2.1 hp

theorem C5_witness :
    (∃ v, (readAt 2 2 (honest Int) exVC exSt 3).1 = Except.ok v) ∧
    (readAt 2 2 (honest Int) exVC exSt 5).1 = Except.error VCError.indexOutOfRange ∧
    (∃ sl, (get_partition 2 2 (honest Int) exVC exSt 1).1 = Except.ok sl) ∧
    (get_partition 2 2 (honest Int) exVC exSt 2).1
      = Except.error VCError.partitionOutOfRange :=
  ⟨(C5_bounds_checking exReach).1 3 (by decide),
   (C5_bounds_checking exReach).2.1 5 (by decide),
   (C5_bounds_checking exReach).2.2.1 1 (by decide),
   (C5_bounds_checking exReach).2.2.2 2 (by decide)⟩

/-- C6: in every reachable state with `size() > 0`, every resident (valid)
slot holding the last page touched by `append` has
`used_count = size() - page_number * page_size`, and every resident slot
holding an earlier page has `used_count = page_size`. -/
theorem C6_used_count_invariant {T : Type} [Inhabited T] {O R : Nat}
    {vc : VectorCache T} {st : HonestSt T} {items : List T}
    (h : Reach O R vc st items) (hpos : 0 < vc.size) {e : Nat}
    (he : e < page_table_size R)
    (hv : (vc.page_table.getD e default).valid = true) :
    (vc.page_table.getD e default).slice.size =
      if (vc.page_table.getD e default).page_number = (vc.size - 1) / page_size O
      then vc.size - (vc.page_table.getD e default).page_number * page_size O
      else page_size O := by
  obtain ⟨hsz, hnp, hlen, hslots, hstore⟩ := reach_inv h
  obtain ⟨hpn, hent, hOKlen, hOKsize, hOKcont⟩ := (hslots e he).1 hv
  have hps := page_size_pos O
  have hpos' : 0 < items.length := by
    have : 0 < vc._size := hpos
    omega
  rw [hnp, numPagesOf, if_neg (by omega)] at hpn
  show (vc.page_table.getD e default).slice.size =
    if (vc.page_table.getD e default).page_number = (vc._size - 1) / page_size O
    then vc._size - (vc.page_table.getD e default).page_number * page_size O
    else page_size O
  rw [hsz, hOKsize]
  by_cases hl : (vc.page_table.getD e default).page_number
      = (items.length - 1) / page_size O
  · rw [if_pos hl, hl]
    have hdm1 := Nat.div_add_mod (items.length - 1) (page_size O)
    have hcm : (items.length - 1) / page_size O * page_size O
        = page_size O * ((items.length - 1) / page_size O) := Nat.mul_comm _ _
    have hmlt := Nat.mod_lt (items.length - 1) hps
    have hle : items.length - (items.length - 1) / page_size O * page_size O
        ≤ page_size O := by omega
    unfold usedOf
    exact Nat.min_eq_right hle
  · rw [if_neg hl]
    apply usedOf_eq_page_size
    have h1 : (vc.page_table.getD e default).page_number + 1
        ≤ (items.length - 1) / page_size O := by omega
    calc ((vc.page_table.getD e default).page_number + 1) * page_size O
        ≤ (items.length - 1) / page_size O * page_size O :=
          Nat.mul_le_mul_right _ h1
      _ ≤ items.length - 1 := Nat.div_mul_le_self _ _
      _ ≤ items.length := by omega

theorem C6_witness :
    (exVC.page_table.getD 0 default).slice.size =
      (if (exVC.page_table.getD 0 default).page_number = (exVC.size - 1) / page_size 2
       then exVC.size - (exVC.page_table.getD 0 default).page_number * page_size 2
       else page_size 2) ∧
    (exVC.page_table.getD 1 default).slice.size =
      (if (exVC.page_table.getD 1 default).page_number = (exVC.size - 1) / page_size 2
       then exVC.size - (exVC.page_table.getD 1 default).page_number * page_size 2
       else page_size 2) :=
  ⟨C6_used_count_invariant exReach (by decide) (by decide) (by decide),
   C6_used_count_invariant exReach (by decide) (by decide) (by decide)⟩

/-- C7: from every reachable state, one operation makes at most one save
call, and only for a page already counted in `num_pages` at the time of the
call; and at most one load call, and only for a page that was previously
evicted (saved) — a freshly created page is populated in place, never
loaded. -/
theorem C7_save_load_discipline {T : Type} [Inhabited T] {O R : Nat}
    {vc : VectorCache T} {st : HonestSt T} {items : List T}
    (h : Reach O R vc st items) :
    (∀ x vc' st', push_back O R (honest T) vc st x = some (vc', st') →
      saveLoadDiscipline st st' vc.num_pages) ∧
    (∀ idx, saveLoadDiscipline st (readAt O R (honest T) vc st idx).2.2 vc.num_pages) ∧
    (∀ p, saveLoadDiscipline st (get_partition O R (honest T) vc st p).2.2 vc.num_pages) := by
  have hinv := reach_inv h
  refine ⟨?_, fun idx => (readAt_spec hinv idx).2.2.2,
    fun p => (get_partition_spec hinv p).2.2.2⟩
  intro x vc' st' heq
  obtain ⟨vc2, st2, heq2, _, hdisc⟩ := push_inv hinv x
  rw [heq] at heq2
  injection heq2 with h2
  have h2s : st' = st2 := congrArg Prod.snd h2
  rw [h2s]
  exact hdisc

theorem C7_witness :
    saveLoadDiscipline exSt (readAt 2 2 (honest Int) exVC exSt 0).2.2 exVC.num_pages :=
  (C7_save_load_discipline exReach).2.1 0

/-- C8: in every reachable state, `num_partitions()` equals
`ceil(size() / page_size)` when `size() > 0` and `0` when `size() == 0`. -/
theorem C8_num_partitions_ceil {T : Type} [Inhabited T] {O R : Nat}
    {vc : VectorCache T} {st : HonestSt T} {items : List T}
    (h : Reach O R vc st items) :
    vc.num_partitions =
      if vc.size = 0 then 0 else (vc.size + page_size O - 1) / page_size O := by
  have hinv := reach_inv h
  have hsz : vc._size = items.length := hinv.1
  have hnp : vc.num_pages = numPagesOf O items.length := hinv.2.1
  show vc.num_pages =
    if vc._size = 0 then 0 else (vc._size + page_size O - 1) / page_size O
  rw [hsz, hnp, numPagesOf_eq_ceil]

theorem C8_witness :
    exVC.num_partitions =
      if exVC.size = 0 then 0 else (exVC.size + page_size 2 - 1) / page_size 2 :=
  C8_num_partitions_ceil exReach

/-- C9: move construction gives the destination the source's prior `size()`
and `bytes()` and resets the source to the empty, zero-capacity state
(`size() == 0`, `bytes() == 0`). -/
theorem C9_move_semantics {T : Type} (O sizeofT : Nat) (a : VectorCache T) :
    a.moveConstruct.1.size = a.size ∧
    a.moveConstruct.1.bytes O sizeofT = a.bytes O sizeofT ∧
    a.moveConstruct.2.size = 0 ∧
    a.moveConstruct.2.bytes O sizeofT = 0 := by
  refine ⟨rfl, rfl, rfl, ?_⟩
  show 0 * page_size O * sizeofT = 0
  ring

/-- C10: `operator[]` and `get_partition` leave the logical counters
untouched — for any backing store, any state and any argument, `size()`,
`num_partitions()` and `bytes()` after the call (success or failure) equal
their values before it. -/
theorem C10_read_ops_frame {T σ : Type} [Inhabited T] (O R : Nat) (B : Backing T σ)
    (vc : VectorCache T) (st : σ) (idx p sizeofT : Nat) :
    ((readAt O R B vc st idx).2.1.size = vc.size ∧
      (readAt O R B vc st idx).2.1.num_partitions = vc.num_partitions ∧
      (readAt O R B vc st idx).2.1.bytes O sizeofT = vc.bytes O sizeofT) ∧
    ((get_partition O R B vc st p).2.1.size = vc.size ∧
      (get_partition O R B vc st p).2.1.num_partitions = vc.num_partitions ∧
      (get_partition O R B vc st p).2.1.bytes O sizeofT = vc.bytes O sizeofT) := by
  have hr : (readAt O R B vc st idx).2.1._size = vc._size ∧
      (readAt O R B vc st idx).2.1.num_pages = vc.num_pages := by
    simp only [readAt]
    repeat' split
    all_goals exact ⟨rfl, rfl⟩
  have hg : (get_partition O R B vc st p).2.1._size = vc._size ∧
      (get_partition O R B vc st p).2.1.num_pages = vc.num_pages := by
    simp only [get_partition]
    repeat' split
    all_goals exact ⟨rfl, rfl⟩
  refine ⟨⟨hr.1, hr.2, ?_⟩, ⟨hg.1, hg.2, ?_⟩⟩
  · show (readAt O R B vc st idx).2.1.num_pages * page_size O * sizeofT
      = vc.num_pages * page_size O * sizeofT
    rw [hr.2]
  · show (get_partition O R B vc st p).2.1.num_pages * page_size O * sizeofT
      = vc.num_pages * page_size O * sizeofT
    rw [hg.2]

end thesoup
